import Mathlib

/-!
Shallow embedding of the training/inference core of dgm-pipeline
(`src/dgm-pipeline/models.py`) and proofs about it.

Tensors are modelled over `ℚ` (exact arithmetic); an image example is the
flattened list of its non-batch elements, so a `reduce_sum` over axes
`[1,2,3]` becomes `List.sum` over that list, and a batch is a list of
examples.  Python control flow is modelled by explicit `match`/`if`;
fallible paths return `Except`.
-/

namespace DgmPipeline

/-- Error message used by both `GAN.train` and `VAE.train` when the number
of epochs cannot be resolved (models.py lines 276 and 398). -/
def epochsErrMsg : String :=
  "Provide a number of epochs to use via JSON specification or keyword argument."

/-- Epochs resolution at the top of `GAN.train` (models.py lines 273-276) and
`VAE.train` (lines 395-398): `if epochs is None and 'epochs' in
self.spec.keys(): epochs = self.spec['epochs'] else: raise ValueError(...)`.
`epochsArg` is the explicit keyword argument, `specEpochs` the spec's
optional `'epochs'` entry.  Note the branch structure: any non-`None`
explicit argument falls into the `else` branch and raises. -/
def resolve_epochs (epochsArg : Option Nat) (specEpochs : Option Nat) :
    Except String Nat :=
  match epochsArg, specEpochs with
  | none, some e => Except.ok e
  | _, _ => Except.error epochsErrMsg

/-- Result of a Python call: the returned value, or a `TypeError` raised at
call time before the callee body runs. -/
inductive PyCall (α : Type) where
  | ok : α → PyCall α
  | typeError : PyCall α
deriving DecidableEq

/-- `GenerativeModel.__init__(self, spec, dataset)` (models.py line 29)
declares exactly two required parameters besides `self`. -/
def generativeModel_init_arity : Nat := 2

/-- Python positional-call semantics for a function with only required
positional parameters: a call with the wrong number of arguments raises
`TypeError` without running the body. -/
def pyCallFixedArity {α β : Type} (arity : Nat) (body : List α → β)
    (args : List α) : PyCall β :=
  if args.length = arity then PyCall.ok (body args) else PyCall.typeError

/-- `GAN.__init__` (models.py lines 219-220): its first statement is
`super().__init__(spec)`, passing a single argument to
`GenerativeModel.__init__`; the rest of the constructor (`rest`) runs only
if that call returns.  `σ` is the type of specs, `δ` of datasets, `γ` of
partially initialized model states. -/
def gan_init {σ δ γ : Type} (baseBody : List (σ ⊕ δ) → γ) (rest : γ → γ)
    (spec : σ) : PyCall γ :=
  match pyCallFixedArity generativeModel_init_arity baseBody [Sum.inl spec] with
  | PyCall.ok s => PyCall.ok (rest s)
  | PyCall.typeError => PyCall.typeError

/-- `square_loss_elem` (models.py lines 439-440). -/
def square_loss_elem (x_pred x_true sd : ℚ) : ℚ :=
  (x_pred - x_true) ^ 2 / (2 * sd ^ 2)

/-- `square_loss` (models.py lines 434-437).  The inner call is
`square_loss_elem(x_pred, x_true, sd=1)`: the literal `1` is passed, so the
`sd` parameter of `square_loss` itself is never consulted. -/
def square_loss (x_pred x_true : List ℚ) (sd : ℚ) : ℚ :=
  -(List.zipWith (fun a b => square_loss_elem a b 1) x_pred x_true).sum

/-- Modelled from the spec: "`normal`→squared error scaled by an error
standard deviation that may itself be a trainable scalar" — the value the
spec claims for `square_loss`: the negative sum over non-batch axes of
`(x_pred - x_true)^2 / (2 * sd^2)` with the given `sd`. -/
def square_loss_claimed (x_pred x_true : List ℚ) (sd : ℚ) : ℚ :=
  -(List.zipWith (fun a b => (a - b) ^ 2 / (2 * sd ^ 2)) x_pred x_true).sum

/-- C1: the claim says a call with an explicit non-None `epochs` argument
proceeds past the resolution check.  The code instead raises whenever the
explicit argument is given (with or without a spec entry); it succeeds only
when the argument is `None` and the spec has an `'epochs'` key, and raises
when neither source is available. -/
theorem resolve_epochs_behavior :
    resolve_epochs (some 5) (some 10) = Except.error epochsErrMsg
    ∧ resolve_epochs (some 5) none = Except.error epochsErrMsg
    ∧ resolve_epochs none (some 10) = Except.ok 10
    ∧ resolve_epochs none none = Except.error epochsErrMsg :=
  ⟨rfl, rfl, rfl, rfl⟩

/-- C2: constructing a GAN always fails: `GAN.__init__` passes one argument
to the two-parameter `GenerativeModel.__init__`, so for every spec the call
raises `TypeError` before any field of the instance is initialized. -/
theorem gan_init_always_typeError {σ δ γ : Type} (baseBody : List (σ ⊕ δ) → γ)
    (rest : γ → γ) (spec : σ) :
    gan_init baseBody rest spec = PyCall.typeError := rfl

/-- C4: the claim says `square_loss` scales the squared error by the given
`sd`.  At `x_pred = [2]`, `x_true = [0]`, `sd = 2` the code returns `-2`
(it hardcodes `sd=1` in the elementwise call) while the claimed value is
`-1/2`, so the code does not honor the configured `sd`. -/
theorem square_loss_ignores_sd :
    square_loss [2] [0] 2 = -2
    ∧ square_loss_claimed [2] [0] 2 = -(1/2)
    ∧ square_loss [2] [0] 2 ≠ square_loss_claimed [2] [0] 2 := by
  refine ⟨by norm_num [square_loss, square_loss_elem], ?_, ?_⟩ <;>
    norm_num [square_loss, square_loss_claimed, square_loss_elem]

/-- One minibatch of the `GAN.train` inner loop (models.py lines 280-284),
restricted to the state the generator-step decision depends on: the
discriminator update runs first, incrementing `D_optimizer.iterations` by
one; then `train_generator` fires iff the new cumulative iteration count is
a multiple of `gen_train_steps`.  State: (D-optimizer iterations, number of
generator steps so far). -/
def gan_minibatch_step (gen_train_steps : Nat) (st : Nat × Nat) : Nat × Nat :=
  let iters := st.1 + 1
  let gens := if iters % gen_train_steps = 0 then st.2 + 1 else st.2
  (iters, gens)

/-- Number of generator steps fired across `n` cumulative discriminator
updates, starting from a fresh `D_optimizer` (iteration count 0). -/
def gan_generator_steps (n gen_train_steps : Nat) : Nat :=
  ((gan_minibatch_step gen_train_steps)^[n] (0, 0)).2

/-- `GenerativeModel.sample_training` (models.py lines 199-203): a fresh
iterator over the dataset (modelled as the stream of its minibatches),
`n_batches = int(n/batch_size)+1` whole minibatches pulled, `np.vstack`
concatenating them, and `[0:n]` truncating to the first `n` examples. -/
def sample_training {α : Type} (dataset : Nat → List α) (batch_size n : Nat) :
    List α :=
  (List.flatten ((List.range (n / batch_size + 1)).map dataset)).take n

lemma gan_iterate_closed (s : Nat) (n : Nat) :
    (gan_minibatch_step s)^[n] (0, 0) = (n, n / s) := by
  induction n with
  | zero => simp [Nat.zero_div]
  | succ k ih =>
      rw [Function.iterate_succ_apply', ih]
      simp only [gan_minibatch_step, Prod.mk.injEq]
      refine ⟨trivial, ?_⟩
      rcases eq_or_ne ((k + 1) % s) 0 with h | h
      · rw [if_pos h, Nat.succ_div_of_dvd (Nat.dvd_of_mod_eq_zero h)]
      · rw [if_neg h, Nat.succ_div_of_not_dvd]
        intro hd
        obtain ⟨c, hc⟩ := hd
        exact h (hc ▸ Nat.mul_mod_right s c)

/-- C7: across `N` cumulative discriminator updates the generator step fires
exactly `⌊N / gen_train_steps⌋` times: after the k-th discriminator update
the generator trains iff `k % gen_train_steps = 0`, and those k in 1..N
number `N / gen_train_steps`. -/
theorem gan_generator_step_count (N gen_train_steps : Nat)
    (hs : 0 < gen_train_steps) :
    gan_generator_steps N gen_train_steps = N / gen_train_steps := by
  unfold gan_generator_steps
  rw [gan_iterate_closed gen_train_steps N]

/-- Witness for C7 at N = 7, gen_train_steps = 3. -/
theorem gan_generator_step_count_witness :
    0 < 3 ∧ gan_generator_steps 7 3 = 7 / 3 :=
  ⟨by decide, gan_generator_step_count 7 3 (by decide)⟩

/-- C8: for a dataset of fixed-size minibatches (each of size
`batch_size ≥ 1`), `sample_training n` returns exactly `n` examples, also
when `batch_size` does not divide `n`. -/
theorem sample_training_length {α : Type} (dataset : Nat → List α)
    (batch_size n : Nat) (hb : 1 ≤ batch_size) (hn : 1 ≤ n)
    (hfix : ∀ i, (dataset i).length = batch_size) :
    (sample_training dataset batch_size n).length = n := by
  unfold sample_training
  rw [List.length_take, List.length_flatten]
  have hmap : (((List.range (n / batch_size + 1)).map dataset).map List.length)
      = (List.range (n / batch_size + 1)).map (fun _ => batch_size) := by
    rw [List.map_map]
    exact List.map_congr_left (fun i _ => hfix i)
  rw [hmap, List.map_const', List.sum_replicate, List.length_range, smul_eq_mul]
  have hlt : n < (n / batch_size + 1) * batch_size := by
    calc n = batch_size * (n / batch_size) + n % batch_size :=
          (Nat.div_add_mod n batch_size).symm
      _ < batch_size * (n / batch_size) + batch_size := by
          have := Nat.mod_lt n hb
          omega
      _ = (n / batch_size + 1) * batch_size := by ring
  exact Nat.min_eq_left (Nat.le_of_lt hlt)

/-- Witness for C8 at batch_size = 4, n = 6 with a constant dataset. -/
theorem sample_training_length_witness :
    1 ≤ 4 ∧ 1 ≤ 6
    ∧ (sample_training (fun _ => List.replicate 4 (0 : ℚ)) 4 6).length = 6 :=
  ⟨by decide, by decide,
    sample_training_length (fun _ => List.replicate 4 (0 : ℚ)) 4 6
      (by decide) (by decide) (fun _ => by simp)⟩

/-- `np.linspace(a, b, n)`: `n` evenly spaced values from `a` to `b`
inclusive; numpy returns `[a]` for `n = 1` and `[]` for `n = 0`. -/
def linspace (a b : ℚ) (n : Nat) : List ℚ :=
  if n = 1 then [a]
  else (List.range n).map (fun (i : Nat) => a + (b - a) * (i : ℚ) / ((n : ℚ) - 1))

/-- `np.tile(v, k)` for a one-dimensional `v`: `k` copies of `v`
concatenated. -/
def tile (v : List ℚ) (k : Nat) : List ℚ := (List.replicate k v).flatten

/-- The three `beta_schedule` spellings dispatched in `VAE.set_beta_schedule`
(models.py lines 372-381): `schedule == 'linear'`, then `'cyclic' in
schedule`, then `schedule == 'constant'`.  The three names select disjoint
branches, so the string dispatch is modelled as a closed enumeration. -/
inductive BetaSchedule where
  | linear | cyclic | constant
deriving DecidableEq

/-- `VAE.set_beta_schedule` (models.py lines 364-381) when the spec has a
`'beta_schedule'` key: `linear` is `np.linspace(0, beta_max, n_epochs)`;
`cyclic` is `np.tile(np.linspace(0, 1, cycle_length), ncycles) * beta_max`
with `ncycles = max(int(n_epochs/cycle_length), 1)`; `constant` is
`np.ones(n_epochs) * beta_max`.  `cycle_length` is the spec's
`'beta_cycle_length'` entry or the default 5. -/
def set_beta_schedule (schedule : BetaSchedule) (n_epochs cycle_length : Nat)
    (beta_max : ℚ) : List ℚ :=
  match schedule with
  | BetaSchedule.linear => linspace 0 beta_max n_epochs
  | BetaSchedule.cyclic =>
      (tile (linspace 0 1 cycle_length) (max (n_epochs / cycle_length) 1)).map
        (fun x => x * beta_max)
  | BetaSchedule.constant => List.replicate n_epochs beta_max

lemma linspace_length (a b : ℚ) (n : Nat) : (linspace a b n).length = n := by
  unfold linspace
  rcases eq_or_ne n 1 with h | h
  · rw [if_pos h, h, List.length_singleton]
  · rw [if_neg h, List.length_map, List.length_range]

lemma linspace_getElem (a b : ℚ) (n i : Nat) (hne : n ≠ 1) (hi : i < n) :
    (linspace a b n)[i]? = some (a + (b - a) * (i : ℚ) / ((n : ℚ) - 1)) := by
  unfold linspace
  rw [if_neg hne, List.getElem?_map, List.getElem?_range hi]
  rfl

lemma linspace_from_zero_bounds {c x : ℚ} {n : Nat} (hc : 0 ≤ c)
    (hx : x ∈ linspace 0 c n) : 0 ≤ x ∧ x ≤ c := by
  unfold linspace at hx
  rcases eq_or_ne n 1 with h | h
  · rw [if_pos h] at hx
    rw [List.mem_singleton] at hx
    subst hx
    exact ⟨le_refl 0, hc⟩
  · rw [if_neg h] at hx
    obtain ⟨i, hi, rfl⟩ := List.mem_map.1 hx
    have hin : i < n := List.mem_range.1 hi
    have hn2 : 2 ≤ n := by omega
    have hpos : (0 : ℚ) < (n : ℚ) - 1 := by
      have : (2 : ℚ) ≤ (n : ℚ) := by exact_mod_cast hn2
      linarith
    have hile : (i : ℚ) ≤ (n : ℚ) - 1 := by
      have : (i : ℚ) + 1 ≤ (n : ℚ) := by exact_mod_cast hin
      linarith
    constructor
    · have : (0 : ℚ) ≤ (c - 0) * (i : ℚ) / ((n : ℚ) - 1) :=
        div_nonneg (mul_nonneg (by linarith) (by positivity)) (le_of_lt hpos)
      linarith
    · have hfrac : (i : ℚ) / ((n : ℚ) - 1) ≤ 1 := (div_le_one hpos).2 hile
      have : (c - 0) * (i : ℚ) / ((n : ℚ) - 1) ≤ c := by
        rw [sub_zero, mul_div_assoc]
        calc c * ((i : ℚ) / ((n : ℚ) - 1)) ≤ c * 1 :=
              mul_le_mul_of_nonneg_left hfrac hc
          _ = c := mul_one c
      linarith

lemma tile_length (v : List ℚ) (k : Nat) : (tile v k).length = k * v.length := by
  unfold tile
  simp [List.length_flatten, List.map_replicate, List.sum_replicate]

lemma mem_tile {v : List ℚ} {k : Nat} {x : ℚ} (hx : x ∈ tile v k) : x ∈ v := by
  unfold tile at hx
  obtain ⟨l, hl, hxl⟩ := List.mem_flatten.1 hx
  exact (List.eq_of_mem_replicate hl) ▸ hxl

lemma tile_getElem (v : List ℚ) : ∀ (k i : Nat), i < k * v.length →
    (tile v k)[i]? = v[i % v.length]? := by
  intro k
  induction k with
  | zero => intro i hi; omega
  | succ m ih =>
      intro i hi
      have hstep : tile v (m + 1) = v ++ tile v m := by
        unfold tile
        simp [List.replicate_succ]
      rcases Nat.lt_or_ge i v.length with h | h
      · rw [hstep, List.getElem?_append_left h, Nat.mod_eq_of_lt h]
      · rw [hstep, List.getElem?_append_right h, Nat.mod_eq_sub_mod h]
        refine ih (i - v.length) ?_
        refine (Nat.sub_lt_iff_lt_add h).2 ?_
        rw [Nat.succ_mul, Nat.add_comm] at hi
        exact hi

/-- C3 counterexample: with `epochs = 7`, the default `cycle_length = 5` and
`beta_max = 1`, the `cyclic` schedule has length 5, not 7: the claimed
length invariant fails. -/
theorem beta_cyclic_length_counterexample :
    (set_beta_schedule BetaSchedule.cyclic 7 5 1).length ≠ 7 := by
  decide

/-- C3 amended: every element of the precomputed beta schedule lies in
`[0, beta_max]`; the length equals the epoch count for the `linear` and
`constant` schedules, while for `cyclic` it is
`max(epochs / cycle_length, 1) * cycle_length`, which equals the epoch
count exactly when `cycle_length` divides `epochs` with a positive
quotient. -/
theorem beta_schedule_length_and_bounds (s : BetaSchedule) (n L : Nat)
    (β : ℚ) (hβ : 0 ≤ β) (hL : 1 ≤ L) :
    (set_beta_schedule s n L β).length
      = (match s with
         | BetaSchedule.cyclic => max (n / L) 1 * L
         | _ => n)
    ∧ ∀ x ∈ set_beta_schedule s n L β, 0 ≤ x ∧ x ≤ β := by
  cases s with
  | linear =>
      refine ⟨linspace_length 0 β n, ?_⟩
      intro x hx
      exact linspace_from_zero_bounds hβ hx
  | cyclic =>
      constructor
      · simp only [set_beta_schedule, List.length_map, tile_length,
          linspace_length]
      · intro x hx
        simp only [set_beta_schedule] at hx
        obtain ⟨y, hy, rfl⟩ := List.mem_map.1 hx
        have hy1 : 0 ≤ y ∧ y ≤ 1 :=
          linspace_from_zero_bounds (by norm_num) (mem_tile hy)
        constructor
        · exact mul_nonneg hy1.1 hβ
        · calc y * β ≤ 1 * β := mul_le_mul_of_nonneg_right hy1.2 hβ
            _ = β := one_mul β
  | constant =>
      refine ⟨List.length_replicate .., ?_⟩
      intro x hx
      rw [List.eq_of_mem_replicate hx]
      exact ⟨hβ, le_refl β⟩

/-- Witness for C3 (amended) at the cyclic schedule, epochs 7, cycle
length 5, beta_max 2. -/
theorem beta_schedule_length_and_bounds_witness :
    (set_beta_schedule BetaSchedule.cyclic 7 5 2).length = max (7 / 5) 1 * 5
    ∧ ∀ x ∈ set_beta_schedule BetaSchedule.cyclic 7 5 2, 0 ≤ x ∧ x ≤ 2 :=
  beta_schedule_length_and_bounds BetaSchedule.cyclic 7 5 2
    (by norm_num) (by norm_num)

/-- C9: `constant` schedules are everywhere `beta_max`; a `linear` schedule
over at least two epochs starts at 0 and ends at `beta_max`; a `cyclic`
schedule repeats with period `cycle_length` wherever both indices are in
range. -/
theorem beta_schedule_values (n L : Nat) (β : ℚ) (hL : 1 ≤ L) :
    (∀ x ∈ set_beta_schedule BetaSchedule.constant n L β, x = β)
    ∧ (2 ≤ n →
        (set_beta_schedule BetaSchedule.linear n L β)[0]? = some 0
        ∧ (set_beta_schedule BetaSchedule.linear n L β)[n - 1]? = some β)
    ∧ (∀ i, i + L < (set_beta_schedule BetaSchedule.cyclic n L β).length →
        (set_beta_schedule BetaSchedule.cyclic n L β)[i]?
          = (set_beta_schedule BetaSchedule.cyclic n L β)[i + L]?) := by
  refine ⟨?_, ?_, ?_⟩
  · intro x hx
    exact List.eq_of_mem_replicate hx
  · intro hn2
    have hne1 : n ≠ 1 := by omega
    have hpos : ((n : ℚ) - 1) ≠ 0 := by
      have : (2 : ℚ) ≤ (n : ℚ) := by exact_mod_cast hn2
      linarith
    constructor
    · rw [show set_beta_schedule BetaSchedule.linear n L β
          = linspace 0 β n from rfl,
        linspace_getElem 0 β n 0 hne1 (by omega)]
      norm_num
    · rw [show set_beta_schedule BetaSchedule.linear n L β
          = linspace 0 β n from rfl,
        linspace_getElem 0 β n (n - 1) hne1 (by omega)]
      have hcast : ((n - 1 : Nat) : ℚ) = (n : ℚ) - 1 := by
        have h1 : 1 ≤ n := by omega
        push_cast [h1]
        ring
      rw [hcast, sub_zero, zero_add, mul_div_assoc, div_self hpos, mul_one]
  · intro i hlen
    have hlen' : (set_beta_schedule BetaSchedule.cyclic n L β).length
        = max (n / L) 1 * L := by
      simp only [set_beta_schedule, List.length_map, tile_length,
        linspace_length]
    rw [hlen'] at hlen
    have hvl : (linspace 0 1 L).length = L := linspace_length 0 1 L
    simp only [set_beta_schedule, List.getElem?_map]
    rw [tile_getElem _ _ i (by
        rw [hvl]
        exact lt_of_le_of_lt (Nat.le_add_right i L) hlen),
      tile_getElem _ _ (i + L) (by rw [hvl]; exact hlen), hvl,
      Nat.add_mod_right]

/-- Witness for C9 at epochs 10, cycle length 5, beta_max 3. -/
theorem beta_schedule_values_witness :
    (∀ x ∈ set_beta_schedule BetaSchedule.constant 10 5 3, x = 3)
    ∧ (2 ≤ 10 →
        (set_beta_schedule BetaSchedule.linear 10 5 3)[0]? = some 0
        ∧ (set_beta_schedule BetaSchedule.linear 10 5 3)[10 - 1]? = some 3)
    ∧ (∀ i, i + 5 < (set_beta_schedule BetaSchedule.cyclic 10 5 3).length →
        (set_beta_schedule BetaSchedule.cyclic 10 5 3)[i]?
          = (set_beta_schedule BetaSchedule.cyclic 10 5 3)[i + 5]?) :=
  beta_schedule_values 10 5 3 (by norm_num)

/-- A batch handed to `create_masked_logp`: either a plain numeric array or
a numpy masked array carrying `data` and a boolean `mask` (`True` means the
element is masked out).  An example is the flattened list of its non-batch
elements and a batch is the list of its examples. -/
inductive Batch where
  | plain (data : List (List ℚ))
  | masked (data : List (List ℚ)) (mask : List (List Bool))
deriving DecidableEq

/-- The standard-normal latent log-prior installed by both constructors
(models.py lines 228 and 307): `-tf.reduce_sum(z**2, axis=-1)/2`, per
latent vector. -/
def log_prior_fn (z : List ℚ) : ℚ := -((z.map (fun t => t ^ 2)).sum) / 2

/-- `GenerativeModel.create_masked_logp` (models.py lines 133-166): if the
batch is a masked array, `is_used = cast(1 - mask)` and the elementwise
loss is multiplied by it before the reduction; otherwise `is_used = 1`.
The closure maps a latent batch `z` to per-example values
`temperature * loglike + log_prior_fn z` with
`loglike = -reduce_sum(loss_elemwise * is_used, axis=[1,2,3])`. -/
def create_masked_logp (gen : List (List ℚ) → List (List ℚ))
    (loss_elemwise_fn : ℚ → ℚ → ℚ) (final_activation_fn : Option (ℚ → ℚ))
    (temperature : ℚ) (batch : Batch) (z : List (List ℚ)) : List ℚ :=
  let raw_data := match batch with
    | Batch.plain d => d
    | Batch.masked d _ => d
  let x0 := gen z
  let x := match final_activation_fn with
    | some f => x0.map (fun ex => ex.map f)
    | none => x0
  let loss_elemwise := List.zipWith (List.zipWith loss_elemwise_fn) raw_data x
  let loss_used := match batch with
    | Batch.plain _ => loss_elemwise
    | Batch.masked _ mask =>
        List.zipWith (List.zipWith (fun l u => l * u)) loss_elemwise
          (mask.map (fun (row : List Bool) =>
            row.map (fun (b : Bool) => if b then (0 : ℚ) else 1)))
  let loglike := loss_used.map (fun (ex : List ℚ) => -ex.sum)
  List.zipWith (fun ll zi => temperature * ll + log_prior_fn zi) loglike z

lemma zipWith_mask_all_false :
    ∀ (l : List ℚ) (m : List Bool), l.length ≤ m.length →
      (∀ b ∈ m, b = false) →
      List.zipWith (fun x u => x * u) l
        (m.map (fun b => if b then (0 : ℚ) else 1)) = l := by
  intro l
  induction l with
  | nil => intro m _ _; simp
  | cons a t ih =>
      intro m hlen hfalse
      cases m with
      | nil => simp at hlen
      | cons b mt =>
          have hb : b = false := hfalse b (List.mem_cons_self b mt)
          subst hb
          simp only [List.map_cons, List.zipWith_cons_cons, if_neg Bool.false_ne_true,
            mul_one]
          rw [ih mt (by simpa using hlen)
            (fun c hc => hfalse c (List.mem_cons_of_mem _ hc))]

lemma loss_mask_all_false (f : ℚ → ℚ → ℚ) :
    ∀ (d x : List (List ℚ)) (m : List (List Bool)),
      d.length = m.length →
      (∀ p ∈ d.zip m, p.1.length = p.2.length) →
      (∀ r ∈ m, ∀ b ∈ r, b = false) →
      List.zipWith (List.zipWith (fun l u => l * u))
          (List.zipWith (List.zipWith f) d x)
          (m.map (fun row => row.map (fun b => if b then (0 : ℚ) else 1)))
        = List.zipWith (List.zipWith f) d x := by
  intro d
  induction d with
  | nil => intro x m _ _ _; simp
  | cons dh dt ih =>
      intro x m hlen hrow hfalse
      cases x with
      | nil => simp
      | cons xh xt =>
          cases m with
          | nil => simp at hlen
          | cons mh mt =>
              have hmem : (dh, mh) ∈ (dh :: dt).zip (mh :: mt) := by
                rw [List.zip_cons_cons]
                exact List.mem_cons_self _ _
              have hdm : dh.length = mh.length := by
                simpa using hrow (dh, mh) hmem
              have htail : ∀ p ∈ dt.zip mt, p.1.length = p.2.length := by
                intro p hp
                refine hrow p ?_
                rw [List.zip_cons_cons]
                exact List.mem_cons_of_mem _ hp
              simp only [List.zipWith_cons_cons, List.map_cons]
              rw [zipWith_mask_all_false (List.zipWith f dh xh) mh
                  (by rw [List.length_zipWith]; omega)
                  (fun b hb => hfalse mh (List.mem_cons_self _ _) b hb),
                ih xt mt (by simpa using hlen) htail
                  (fun r hr => hfalse r (List.mem_cons_of_mem _ hr))]

/-- C5 counterexample: with an all-True mask the multiplicative keep-mask
`1 - mask` is zero everywhere, so every element is excluded and the closure
differs from the unmasked one whenever the loss sum is nonzero:
data `[[1]]`, generator constantly `[[0]]`, squared-error loss,
temperature 1, `z = [[0]]` gives `[0]` (masked) vs `[-1/2]` (plain). -/
theorem masked_logp_all_true_counterexample :
    create_masked_logp (fun _ => [[0]]) (fun a b => (a - b) ^ 2 / 2) none 1
        (Batch.masked [[1]] [[true]]) [[0]]
      ≠ create_masked_logp (fun _ => [[0]]) (fun a b => (a - b) ^ 2 / 2) none 1
        (Batch.plain [[1]]) [[0]] := by
  simp only [create_masked_logp, log_prior_fn]
  norm_num

/-- C5 amended: the closure built for a masked batch whose mask is
all-False (no element masked out, so the keep-mask is all-true) agrees with
the closure built for the identical plain batch, for every latent batch,
generator, elementwise loss, activation, temperature and the shared prior. -/
theorem masked_logp_all_false_eq_plain (gen : List (List ℚ) → List (List ℚ))
    (loss_elemwise_fn : ℚ → ℚ → ℚ) (final_activation_fn : Option (ℚ → ℚ))
    (temperature : ℚ) (data : List (List ℚ)) (mask : List (List Bool))
    (z : List (List ℚ))
    (hlen : data.length = mask.length)
    (hrow : ∀ p ∈ data.zip mask, p.1.length = p.2.length)
    (hfalse : ∀ r ∈ mask, ∀ b ∈ r, b = false) :
    create_masked_logp gen loss_elemwise_fn final_activation_fn temperature
        (Batch.masked data mask) z
      = create_masked_logp gen loss_elemwise_fn final_activation_fn temperature
        (Batch.plain data) z := by
  simp only [create_masked_logp]
  rw [loss_mask_all_false loss_elemwise_fn data _ mask hlen hrow hfalse]

/-- Witness for C5 (amended) on a concrete 2-example batch with an
all-False mask. -/
theorem masked_logp_all_false_eq_plain_witness :
    create_masked_logp (fun _ => [[0, 1], [1, 0]])
        (fun a b => (a - b) ^ 2 / 2) none 2
        (Batch.masked [[1, 0], [0, 1]] [[false, false], [false, false]])
        [[0], [1]]
      = create_masked_logp (fun _ => [[0, 1], [1, 0]])
        (fun a b => (a - b) ^ 2 / 2) none 2
        (Batch.plain [[1, 0], [0, 1]]) [[0], [1]] :=
  masked_logp_all_false_eq_plain (fun _ => [[0, 1], [1, 0]])
    (fun a b => (a - b) ^ 2 / 2) none 2 [[1, 0], [0, 1]]
    [[false, false], [false, false]] [[0], [1]]
    (by decide) (by decide) (by decide)

/-- A filesystem side effect performed by `GenerativeModel.save`. -/
inductive FileOp where
  | removeFile : String → FileOp
  | writeFile : String → FileOp
deriving DecidableEq

/-- Target path of the inference network (models.py line 95). -/
def inference_path (p : String) : String := p ++ "_inference_net.h5"

/-- Target path of the generative network (models.py line 101). -/
def generative_path (p : String) : String := p ++ "_generative_net.h5"

/-- `GenerativeModel.save` (models.py lines 87-107): for each present
sub-network — inference first, then generative — it removes any existing
file at the target path and writes the network there; afterwards, if
neither sub-network exists (in which case no file operation happened), it
raises `ValueError`.  `hasGen`/`hasInf` model the `hasattr` checks and
`existsGen`/`existsInf` model `os.path.exists` at the two paths; the result
is the ordered trace of file operations. -/
def save (hasGen hasInf existsGen existsInf : Bool) (p : String) :
    Except String (List FileOp) :=
  let infOps := if hasInf then
      (if existsInf then [FileOp.removeFile (inference_path p)] else [])
        ++ [FileOp.writeFile (inference_path p)]
    else []
  let genOps := if hasGen then
      (if existsGen then [FileOp.removeFile (generative_path p)] else [])
        ++ [FileOp.writeFile (generative_path p)]
    else []
  if hasGen || hasInf then Except.ok (infOps ++ genOps)
  else Except.error "No model object found for saving."

/-- `p` is written in the trace, and if a file already existed at `p`, a
removal of `p` occurs strictly before a write of `p`. -/
def writtenAfterRemoval (p : String) (existed : Bool) (ops : List FileOp) :
    Prop :=
  FileOp.writeFile p ∈ ops
  ∧ (existed = true → ∃ i j : Nat, i < j
      ∧ ops[i]? = some (FileOp.removeFile p)
      ∧ ops[j]? = some (FileOp.writeFile p))

lemma writtenAfterRemoval_append_right {p : String} {existed : Bool}
    {ops : List FileOp} (post : List FileOp)
    (h : writtenAfterRemoval p existed ops) :
    writtenAfterRemoval p existed (ops ++ post) := by
  obtain ⟨hmem, hord⟩ := h
  refine ⟨List.mem_append_left post hmem, ?_⟩
  intro he
  obtain ⟨i, j, hij, hi, hj⟩ := hord he
  have hilt : i < ops.length := by
    rcases List.getElem?_eq_some_iff.1 hi with ⟨h, _⟩
    exact h
  have hjlt : j < ops.length := by
    rcases List.getElem?_eq_some_iff.1 hj with ⟨h, _⟩
    exact h
  exact ⟨i, j, hij, by rw [List.getElem?_append_left hilt]; exact hi,
    by rw [List.getElem?_append_left hjlt]; exact hj⟩

lemma writtenAfterRemoval_append_left {p : String} {existed : Bool}
    {ops : List FileOp} (pre : List FileOp)
    (h : writtenAfterRemoval p existed ops) :
    writtenAfterRemoval p existed (pre ++ ops) := by
  obtain ⟨hmem, hord⟩ := h
  refine ⟨List.mem_append_right pre hmem, ?_⟩
  intro he
  obtain ⟨i, j, hij, hi, hj⟩ := hord he
  refine ⟨pre.length + i, pre.length + j, by omega, ?_, ?_⟩
  · rw [List.getElem?_append_right (Nat.le_add_right pre.length i),
      Nat.add_sub_cancel_left]
    exact hi
  · rw [List.getElem?_append_right (Nat.le_add_right pre.length j),
      Nat.add_sub_cancel_left]
    exact hj

lemma writtenAfterRemoval_netOps (p : String) (existed : Bool) :
    writtenAfterRemoval p existed
      ((if existed then [FileOp.removeFile p] else [])
        ++ [FileOp.writeFile p]) := by
  cases existed with
  | false =>
      refine ⟨by simp, ?_⟩
      intro he
      exact absurd he (by simp)
  | true =>
      refine ⟨by simp, ?_⟩
      intro _
      exact ⟨0, 1, by omega, rfl, rfl⟩

/-- C6: `save` raises exactly when neither sub-network is present; when at
least one is present it returns a trace of file operations in which each
present sub-network is written to its `<prefix>_{generative|inference}_net`
path, with any pre-existing file at that path removed beforehand. -/
theorem save_error_iff_and_writes (hasGen hasInf existsGen existsInf : Bool)
    (p : String) :
    ((save hasGen hasInf existsGen existsInf p).isOk = false
      ↔ (hasGen = false ∧ hasInf = false))
    ∧ (∀ ops, save hasGen hasInf existsGen existsInf p = Except.ok ops →
        (hasInf = true → writtenAfterRemoval (inference_path p) existsInf ops)
        ∧ (hasGen = true →
            writtenAfterRemoval (generative_path p) existsGen ops)) := by
  cases hasGen with
  | false =>
      cases hasInf with
      | false =>
          refine ⟨by simp [save, Except.isOk, Except.toBool], ?_⟩
          intro ops hok
          simp [save] at hok
      | true =>
          refine ⟨by simp [save, Except.isOk, Except.toBool], ?_⟩
          intro ops hok
          have hval : save false true existsGen existsInf p
              = Except.ok
                (((if existsInf then [FileOp.removeFile (inference_path p)]
                    else []) ++ [FileOp.writeFile (inference_path p)])
                  ++ []) := rfl
          rw [hval, Except.ok.injEq] at hok
          subst hok
          refine ⟨fun _ => ?_, fun h => by simp at h⟩
          exact writtenAfterRemoval_append_right []
            (writtenAfterRemoval_netOps (inference_path p) existsInf)
  | true =>
      cases hasInf with
      | false =>
          refine ⟨by simp [save, Except.isOk, Except.toBool], ?_⟩
          intro ops hok
          have hval : save true false existsGen existsInf p
              = Except.ok
                ([] ++ ((if existsGen then
                    [FileOp.removeFile (generative_path p)] else [])
                  ++ [FileOp.writeFile (generative_path p)])) := rfl
          rw [hval, Except.ok.injEq] at hok
          subst hok
          refine ⟨fun h => by simp at h, fun _ => ?_⟩
          exact writtenAfterRemoval_append_left []
            (writtenAfterRemoval_netOps (generative_path p) existsGen)
      | true =>
          refine ⟨by simp [save, Except.isOk, Except.toBool], ?_⟩
          intro ops hok
          have hval : save true true existsGen existsInf p
              = Except.ok
                (((if existsInf then [FileOp.removeFile (inference_path p)]
                    else []) ++ [FileOp.writeFile (inference_path p)])
                  ++ ((if existsGen then
                      [FileOp.removeFile (generative_path p)] else [])
                    ++ [FileOp.writeFile (generative_path p)])) := rfl
          rw [hval, Except.ok.injEq] at hok
          subst hok
          constructor
          · intro _
            exact writtenAfterRemoval_append_right _
              (writtenAfterRemoval_netOps (inference_path p) existsInf)
          · intro _
            exact writtenAfterRemoval_append_left _
              (writtenAfterRemoval_netOps (generative_path p) existsGen)

/-- Witness for C6 with both networks present, both paths pre-existing. -/
theorem save_error_iff_and_writes_witness :
    ((save true true true true "m").isOk = false ↔ (true = false ∧ true = false)) :=
  (save_error_iff_and_writes true true true true "m").1

/-- Clipping threshold `eps = 1e-5` in `log_cb_constant`
(models.py line 460). -/
noncomputable def cbEps : ℝ := 1 / 100000

/-- `tf.clip_by_value(x, eps, 1 - eps)` elementwise
(models.py line 465). -/
noncomputable def cbClip (x : ℝ) : ℝ := max cbEps (min (1 - cbEps) x)

/-- Argument of the outer log in the "far" branch of `log_cb_constant`
(models.py line 469): `(log(1 - x) - log(x)) / (1 - 2x)`. -/
noncomputable def cbFarArg (x : ℝ) : ℝ :=
  (Real.log (1 - x) - Real.log x) / (1 - 2 * x)

/-- "Far" branch value of `log_cb_constant` (models.py line 469). -/
noncomputable def cbFarFormula (x : ℝ) : ℝ := Real.log (cbFarArg x)

/-- "Close" branch value of `log_cb_constant` (models.py line 470):
`log(2) + log(1 + (1 - 2x)^2 / 3)`. -/
noncomputable def cbCloseFormula (x : ℝ) : ℝ :=
  Real.log 2 + Real.log (1 + (1 - 2 * x) ^ 2 / 3)

open Classical in
/-- `log_cb_constant` (models.py lines 459-471): clip each element to
`[eps, 1 - eps]`, route elements with `|x - 0.5| ≥ eps` through the far
branch and the rest through the close branch, and sum over the whole
batch; summing each element through its own branch equals the source's
two masked partial sums. -/
noncomputable def log_cb_constant (xs : List ℝ) : ℝ :=
  ((xs.map cbClip).map
    (fun x => if cbEps ≤ |x - 1/2| then cbFarFormula x else cbCloseFormula x)).sum

/-- C10: at an element exactly equal to 0.5 the close-branch formula
evaluates to `log 2`; and every clipped element routed to the far branch
(`eps ≤ x ≤ 1 - eps` and `|x - 0.5| ≥ eps`) has a strictly positive
argument to the outer log, so the far branch is the log of a positive
real and stays finite. -/
theorem log_cb_constant_branches :
    cbCloseFormula (1/2) = Real.log 2
    ∧ ∀ x : ℝ, cbEps ≤ x → x ≤ 1 - cbEps → cbEps ≤ |x - 1/2| →
        0 < cbFarArg x := by
  constructor
  · unfold cbCloseFormula
    norm_num
  · intro x h1 h2 h3
    have heps : (0 : ℝ) < cbEps := by norm_num [cbEps]
    have hne : x ≠ 1/2 := by
      intro he
      rw [he] at h3
      norm_num [cbEps] at h3
    have hx0 : 0 < x := lt_of_lt_of_le heps h1
    have hx1 : x < 1 := by
      have : cbEps > 0 := heps
      linarith
    unfold cbFarArg
    rcases lt_or_gt_of_ne hne with hlt | hgt
    · have hlog : Real.log x < Real.log (1 - x) :=
        Real.log_lt_log hx0 (by linarith)
      exact div_pos (by linarith) (by linarith)
    · have hlog : Real.log (1 - x) < Real.log x :=
        Real.log_lt_log (by linarith) (by linarith)
      exact div_pos_of_neg_of_neg (by linarith) (by linarith)

/-- Witness for C10 at the far-branch element x = 3/4. -/
theorem log_cb_constant_branches_witness :
    cbCloseFormula (1/2) = Real.log 2 ∧ 0 < cbFarArg (3/4) :=
  ⟨log_cb_constant_branches.1,
    log_cb_constant_branches.2 (3/4) (by norm_num [cbEps])
      (by norm_num [cbEps])
      (by rw [abs_of_nonneg (by norm_num : (0:ℝ) ≤ 3/4 - 1/2)]
          norm_num [cbEps])⟩

end DgmPipeline
